import Mathlib

/-! Verification development for the CountryData build script (src/__main__.py).

The script is a one-shot ETL pipeline: it cleans a centroid table (keyed by
ISO alpha-2 code), cleans a UN M49 classification table, outer-joins the two
on the ISO code, remaps a handful of Comtrade statistical codes, appends seven
synthetic non-country rows, coerces the Comtrade code column to integers,
sorts by country name and writes a CSV.

Tables are embedded as lists of records; pandas missing values (NaN) are
embedded as Option.none.  Latitude and longitude literals are carried by an
exact decimal type, since the pipeline only moves them around and never
computes with them.  String comparison and whitespace stripping are defined by
structural recursion on the character list so that every definition is
kernel-executable. -/

namespace CountryData

/-- Exact decimal number, mantissa times ten to the minus exponent.  Carrier
for the latitude and longitude literals of the source. -/
structure Decimal where
  mantissa : Int
  exponent : Nat
  deriving DecidableEq, Repr

/-- Lexicographic comparison of character lists by code point, the order
Python uses when comparing strings. -/
def charListLE : List Char → List Char → Bool
  | [], _ => true
  | _ :: _, [] => false
  | a :: as, b :: bs =>
    if a.toNat < b.toNat then true
    else if b.toNat < a.toNat then false
    else charListLE as bs

/-- Lexicographic string comparison by code point. -/
def strLE (a b : String) : Bool :=
  charListLE a.data b.data

/-- Sort key used by sort_values on the country column: missing values are
placed last (pandas default na_position), present values are compared
lexicographically. -/
def countryLE : Option String → Option String → Bool
  | _, none => true
  | none, some _ => false
  | some a, some b => strLE a b

/-- Whitespace stripping of a string on both sides, the behaviour of the
pandas str.strip used on the ISO and COUNTRY columns. -/
def strip (s : String) : String :=
  ⟨((s.data.dropWhile Char.isWhitespace).reverse.dropWhile Char.isWhitespace).reverse⟩

/-- Model of the pandas default missing-value sentinels, the external
collaborator behaviour governed by the keep_default_na flag of read_csv and
read_html.  The list follows the pandas documentation. -/
def default_na_values : List String :=
  ["", "#N/A", "#N/A N/A", "#NA", "-1.#IND", "-1.#QNAN", "-NaN", "-nan",
   "1.#IND", "1.#QNAN", "<NA>", "N/A", "NA", "NULL", "NaN", "None",
   "n/a", "nan", "null"]

/-- Model of how a raw text cell enters a DataFrame: with sentinel detection
enabled (keep_default_na true, the pandas default) a sentinel cell becomes a
missing value, otherwise the cell is kept verbatim as a string. -/
def parseCell (keepDefaultNA : Bool) (s : String) : Option String :=
  if keepDefaultNA && default_na_values.contains s then none else some s

/-- Flag passed to read_csv for the centroid source (line 18 of the script). -/
def read_csv_keep_default_na : Bool := false

/-- Flag passed to read_html for the UN classification source (line 100 of
the script). -/
def read_html_keep_default_na : Bool := false

/-- Raw row of the centroid CSV: COUNTRY, ISO, COUNTRYAFF, AFF_ISO plus the
coordinate columns. -/
structure RawCentroidRow where
  country : String
  iso : String
  countryaff : String
  aff_iso : String
  latitude : Decimal
  longitude : Decimal
  deriving DecidableEq, Repr

/-- Cleaned centroid record after dropping COUNTRYAFF and AFF_ISO and
renaming ISO and COUNTRY. -/
structure CentroidRow where
  country : String
  iso : String
  latitude : Decimal
  longitude : Decimal
  deriving DecidableEq, Repr

/-- The hardcoded exclusion list of (ISO, COUNTRY) pairs removed from the raw
centroid table. -/
def exclude_rows : List (String × String) :=
  [("TF", "Juan De Nova Island"),
   ("TF", "Glorioso Islands"),
   ("BQ", "Saba"),
   ("BQ", "Saint Eustatius"),
   ("ES", "Canarias")]

/-- A raw centroid row is kept when its (ISO, COUNTRY) pair, exactly as read,
is not in the exclusion list (the left merge with indicator keeps the rows
marked left_only). -/
def keepRow (r : RawCentroidRow) : Bool :=
  !(decide ((r.iso, r.country) ∈ exclude_rows))

/-- Whitespace stripping of the ISO and COUNTRY columns (lines 39 and 40 of
the script). -/
def stripRow (r : RawCentroidRow) : RawCentroidRow :=
  { r with iso := strip r.iso, country := strip r.country }

/-- Column selection and renaming applied after the sort: COUNTRYAFF and
AFF_ISO are dropped, ISO and COUNTRY become iso and country. -/
def projectRow (r : RawCentroidRow) : CentroidRow :=
  { country := r.country, iso := r.iso, latitude := r.latitude, longitude := r.longitude }

/-- Sort relation on raw centroid rows used by sort_values on the ISO
column. -/
def rawIsoLE (a b : RawCentroidRow) : Prop :=
  strLE a.iso b.iso = true

instance : DecidableRel rawIsoLE := fun a b => by
  unfold rawIsoLE; infer_instance

/-- The cleaned part of the centroid table drawn from the source CSV:
exclusion filtering on the raw (unstripped) fields, then stripping, then the
sort by ISO, then the column selection. -/
def cleanCentroids (raw : List RawCentroidRow) : List CentroidRow :=
  (List.insertionSort rawIsoLE ((raw.filter keepRow).map stripRow)).map projectRow

/-- The four manually curated centroid rows appended after the sort. -/
def missing_lat_lon : List CentroidRow :=
  [{ country := "Hong Kong", iso := "HK",
     latitude := ⟨223964, 4⟩, longitude := ⟨1141095, 4⟩ },
   { country := "Macau", iso := "MO",
     latitude := ⟨222109, 4⟩, longitude := ⟨1135525, 4⟩ },
   { country := "Åland Islands", iso := "AX",
     latitude := ⟨6025, 2⟩, longitude := ⟨200, 1⟩ },
   { country := "Western Sahara", iso := "EH",
     latitude := ⟨245, 1⟩, longitude := ⟨-13, 0⟩ }]

/-- fetch_centroids after the download: clean the raw table and append the
manual rows (the concat happens after the sort). -/
def fetch_centroids (raw : List RawCentroidRow) : List CentroidRow :=
  cleanCentroids raw ++ missing_lat_lon

/-- Raw row of the UN M49 overview table as scraped from the HTML document,
with the original column names of the source. -/
structure RawUnRow where
  country : String
  m49 : Int
  region : String
  subregion : String
  iso3 : String
  iso2 : String
  ldcMarker : String
  deriving DecidableEq, Repr

/-- Cleaned classification record: the column selection at the end of
fetch_un_data keeps region, subregion, m49, iso3, iso2 and the derived ldc
boolean, and discards every other column. -/
structure UnRow where
  region : String
  subregion : String
  m49 : Int
  iso3 : String
  iso2 : String
  ldc : Bool
  deriving DecidableEq, Repr

/-- fetch_un_data after the download: derive the ldc boolean from the LDC
marker column (true exactly when the cell is the single character x) and
select the output columns. -/
def fetch_un_data (raw : List RawUnRow) : List UnRow :=
  raw.map (fun r =>
    { region := r.region, subregion := r.subregion, m49 := r.m49,
      iso3 := r.iso3, iso2 := r.iso2, ldc := decide (r.ldcMarker = "x") })

/-- Row of the merged table produced by the outer join, before the Comtrade
and non-country columns are added.  A missing value (NaN) is none; the
centroid-side iso column is already dropped. -/
structure MergedRow where
  region : Option String
  subregion : Option String
  m49 : Option Int
  iso3 : Option String
  iso2 : Option String
  ldc : Option Bool
  country : Option String
  latitude : Option Decimal
  longitude : Option Decimal
  deriving DecidableEq, Repr

/-- Centroid rows whose iso matches the iso2 key of a classification row. -/
def centroidMatches (cents : List CentroidRow) (u : UnRow) : List CentroidRow :=
  cents.filter (fun c => decide (c.iso = u.iso2))

/-- Merged row for a matched pair of a classification row and a centroid
row. -/
def bothRow (u : UnRow) (c : CentroidRow) : MergedRow :=
  { region := some u.region, subregion := some u.subregion, m49 := some u.m49,
    iso3 := some u.iso3, iso2 := some u.iso2, ldc := some u.ldc,
    country := some c.country, latitude := some c.latitude, longitude := some c.longitude }

/-- Merged row for a classification row with no centroid match: the
centroid-side fields are missing. -/
def unOnlyRow (u : UnRow) : MergedRow :=
  { region := some u.region, subregion := some u.subregion, m49 := some u.m49,
    iso3 := some u.iso3, iso2 := some u.iso2, ldc := some u.ldc,
    country := none, latitude := none, longitude := none }

/-- Merged row for a centroid row with no classification match: the
classification-side fields are missing. -/
def centOnlyRow (c : CentroidRow) : MergedRow :=
  { region := none, subregion := none, m49 := none,
    iso3 := none, iso2 := none, ldc := none,
    country := some c.country, latitude := some c.latitude, longitude := some c.longitude }

/-- Whether some classification row matches the centroid row on the join
key. -/
def centMatched (un : List UnRow) (c : CentroidRow) : Bool :=
  un.any (fun u => decide (u.iso2 = c.iso))

/-- The full outer join of the cleaned classification table with the cleaned
centroid table on iso2 = iso: every matching pair, every unmatched
classification row alone, and every unmatched centroid row alone. -/
def mergeOuter (un : List UnRow) (cents : List CentroidRow) : List MergedRow :=
  (un.flatMap (fun u =>
    if (centroidMatches cents u).isEmpty then [unOnlyRow u]
    else (centroidMatches cents u).map (bothRow u)))
  ++ ((cents.filter (fun c => !(centMatched un c))).map centOnlyRow)

/-- Merged row after the two derived columns are added: m49_comtrade is
initialised to m49 and non_country_region to false. -/
structure Row where
  region : Option String
  subregion : Option String
  m49 : Option Int
  iso3 : Option String
  iso2 : Option String
  ldc : Option Bool
  country : Option String
  latitude : Option Decimal
  longitude : Option Decimal
  m49_comtrade : Option Int
  non_country_region : Bool
  deriving DecidableEq, Repr

/-- Adds the derived columns to a merged row, mirroring lines 149 and 157 of
the script. -/
def toRow (m : MergedRow) : Row :=
  { region := m.region, subregion := m.subregion, m49 := m.m49,
    iso3 := m.iso3, iso2 := m.iso2, ldc := m.ldc, country := m.country,
    latitude := m.latitude, longitude := m.longitude,
    m49_comtrade := m.m49, non_country_region := false }

/-- The fixed Comtrade override table mapping an alternate m49 code to the
country name it applies to, in the iteration order of the source dict. -/
def alternate_comtrade_m49_codes : List (Int × String) :=
  [(251, "France"), (579, "Norway"), (699, "India"), (757, "Switzerland"),
   (842, "United States")]

/-- One Comtrade override applied to one row: rows whose country equals the
override name get the alternate code, other rows are unchanged. -/
def overrideFn (p : Int × String) (r : Row) : Row :=
  if r.country = some p.2 then { r with m49_comtrade := some p.1 } else r

/-- The diagnostic printed when an override name is absent from the merged
table. -/
def countryNotFoundMsg (name : String) : String :=
  "Country " ++ name ++ " not found in merged."

/-- The loop over the override table: each override either rewrites the
matching rows or, when no row carries the name, appends a diagnostic and
leaves the table unchanged. -/
def comtradeFold (overrides : List (Int × String)) (acc : List Row × List String) :
    List Row × List String :=
  overrides.foldl
    (fun acc p =>
      if acc.1.any (fun r => decide (r.country = some p.2)) then
        (acc.1.map (overrideFn p), acc.2)
      else
        (acc.1, acc.2 ++ [countryNotFoundMsg p.2]))
    acc

/-- The Comtrade remapping step of the script, returning the updated rows and
the emitted diagnostics. -/
def comtradeStep (rows : List Row) : List Row × List String :=
  comtradeFold alternate_comtrade_m49_codes (rows, [])

/-- All overrides applied to a single row in order. -/
def applyAll (overrides : List (Int × String)) (r : Row) : Row :=
  overrides.foldl (fun r p => overrideFn p r) r

/-- The fixed table of synthetic non-country rows: m49 code, optional region
label, label used as the country name. -/
def m49_non_country : List (Int × Option String × String) :=
  [(899, none, "NES"),
   (568, some "Europe", "NES"),
   (490, some "Asia", "NES"),
   (577, some "Africa", "NES"),
   (837, none, "Bunkers"),
   (838, none, "Free Zones"),
   (839, none, "Special Categories")]

/-- The synthetic row built from one entry of the non-country table: the
columns absent from the small frame are missing after the concat, ldc is
false, m49_comtrade copies m49 and the non-country flag is set. -/
def nonCountryRow (p : Int × Option String × String) : Row :=
  { region := p.2.1, subregion := none, m49 := some p.1,
    iso3 := none, iso2 := none, ldc := some false,
    country := some p.2.2, latitude := none, longitude := none,
    m49_comtrade := some p.1, non_country_region := true }

/-- Sort relation on final rows used by sort_values on the country column:
missing countries are placed last. -/
def rowLE (a b : Row) : Prop :=
  countryLE a.country b.country = true

instance : DecidableRel rowLE := fun a b => by
  unfold rowLE; infer_instance

/-- The table as it stands right before the astype coercion: merged rows
with the derived columns after the Comtrade remapping, followed by the seven
synthetic rows. -/
def preRows (un : List UnRow) (cents : List CentroidRow) : List Row :=
  (comtradeStep ((mergeOuter un cents).map toRow)).1 ++ m49_non_country.map nonCountryRow

/-- The reconciliation tail of the script: add the derived columns, run the
Comtrade remapping, append the synthetic rows, coerce m49_comtrade to int
(which fails, aborting the run, when any value is missing) and sort by
country. -/
def reconcile (un : List UnRow) (cents : List CentroidRow) : Option (List Row) :=
  if (preRows un cents).all (fun r => r.m49_comtrade.isSome) then
    some (List.insertionSort rowLE (preRows un cents))
  else none

/-- Row of the written CSV, in the column order of the final selection. -/
structure OutRow where
  region : Option String
  subregion : Option String
  country : Option String
  iso2 : Option String
  iso3 : Option String
  m49 : Option Int
  m49_comtrade : Option Int
  latitude : Option Decimal
  longitude : Option Decimal
  ldc : Option Bool
  non_country_region : Bool
  deriving DecidableEq, Repr

/-- The final column selection before to_csv. -/
def selectColumns (r : Row) : OutRow :=
  { region := r.region, subregion := r.subregion, country := r.country,
    iso2 := r.iso2, iso3 := r.iso3, m49 := r.m49,
    m49_comtrade := r.m49_comtrade, latitude := r.latitude,
    longitude := r.longitude, ldc := r.ldc,
    non_country_region := r.non_country_region }

/-- The header written by to_csv, the names of the selected columns in
order. -/
def output_columns : List String :=
  ["region", "subregion", "country", "iso2", "iso3", "m49", "m49_comtrade",
   "latitude", "longitude", "ldc", "non_country_region"]

/-- The index argument passed to to_csv (line 193): no row-index column is
written. -/
def to_csv_index : Bool := false

/-- The header argument of to_csv, left at the pandas default: the header row
is written. -/
def to_csv_header : Bool := true

/-- The written file as header plus data rows, or none when the pipeline
aborts before writing. -/
def writeTable (un : List UnRow) (cents : List CentroidRow) :
    Option (List String × List OutRow) :=
  match reconcile un cents with
  | none => none
  | some rows => some (output_columns, rows.map selectColumns)

/-- The whole pipeline from the two raw tables to the written file. -/
def writtenFile (rawC : List RawCentroidRow) (rawU : List RawUnRow) :
    Option (List String × List OutRow) :=
  writeTable (fetch_un_data rawU) (fetch_centroids rawC)

/-- The classification-side fields of a merged row agree with a
classification record. -/
def unSide (u : UnRow) (r : MergedRow) : Prop :=
  r.region = some u.region ∧ r.subregion = some u.subregion ∧ r.m49 = some u.m49 ∧
  r.iso3 = some u.iso3 ∧ r.iso2 = some u.iso2 ∧ r.ldc = some u.ldc

/-- The centroid-side fields of a merged row agree with a centroid record. -/
def centSide (c : CentroidRow) (r : MergedRow) : Prop :=
  r.country = some c.country ∧ r.latitude = some c.latitude ∧ r.longitude = some c.longitude

/-- The country names appearing in the Comtrade override table. -/
def overrideNames : List String :=
  alternate_comtrade_m49_codes.map Prod.snd

/-- Two final rows that agree on every column except possibly
m49_comtrade. -/
def sameExceptComtrade (a b : Row) : Prop :=
  a.region = b.region ∧ a.subregion = b.subregion ∧ a.m49 = b.m49 ∧ a.iso3 = b.iso3 ∧
  a.iso2 = b.iso2 ∧ a.ldc = b.ldc ∧ a.country = b.country ∧ a.latitude = b.latitude ∧
  a.longitude = b.longitude ∧ a.non_country_region = b.non_country_region

/-- An output row carries exactly the data of a merged row, on every column
that exists at merge time (m49_comtrade and the non-country flag are derived
later). -/
def outFromMerged (m : MergedRow) (o : OutRow) : Prop :=
  o.region = m.region ∧ o.subregion = m.subregion ∧ o.country = m.country ∧
  o.iso2 = m.iso2 ∧ o.iso3 = m.iso3 ∧ o.m49 = m.m49 ∧
  o.latitude = m.latitude ∧ o.longitude = m.longitude ∧ o.ldc = m.ldc

/-- Sort relation on written rows, the country order of the final
sort_values. -/
def outRowLE (a b : OutRow) : Prop :=
  countryLE a.country b.country = true

instance : DecidableRel outRowLE := fun a b => by
  unfold outRowLE; infer_instance

/-- Sample raw centroid row sharing the iso code HK with one of the manual
rows, used to exhibit inputs on which iso uniqueness fails. -/
def exRawHongKong : RawCentroidRow :=
  { country := "Hong Kong", iso := "HK", countryaff := "China", aff_iso := "CH",
    latitude := ⟨223964, 4⟩, longitude := ⟨1141095, 4⟩ }

/-- Sample raw centroid row whose stripped key pair is in the exclusion list
while the raw pair is not. -/
def exRawSpacedTF : RawCentroidRow :=
  { country := "Juan De Nova Island", iso := " TF", countryaff := "French Southern Territories",
    aff_iso := "TF", latitude := ⟨-171, 1⟩, longitude := ⟨427, 1⟩ }

/-- Sample raw centroid row for France. -/
def exRawFrance : RawCentroidRow :=
  { country := "France", iso := "FR", countryaff := "France", aff_iso := "FR",
    latitude := ⟨466, 1⟩, longitude := ⟨2, 0⟩ }

/-- Sample raw centroid row for Namibia, whose iso code is the NA sentinel
string. -/
def exRawNamibia : RawCentroidRow :=
  { country := "Namibia", iso := "NA", countryaff := "Namibia", aff_iso := "NA",
    latitude := ⟨-23, 0⟩, longitude := ⟨17, 0⟩ }

/-- Sample raw classification row for France. -/
def exRawUnFrance : RawUnRow :=
  { country := "France", m49 := 250, region := "Europe", subregion := "Western Europe",
    iso3 := "FRA", iso2 := "FR", ldcMarker := "" }

/-- Sample raw classification row for Namibia. -/
def exRawUnNamibia : RawUnRow :=
  { country := "Namibia", m49 := 516, region := "Africa", subregion := "Southern Africa",
    iso3 := "NAM", iso2 := "NA", ldcMarker := "" }

/-- Sample raw classification rows matching the four manual centroid rows, so
that sample runs reach the writer. -/
def exRawUnFour : List RawUnRow :=
  [{ country := "China, Hong Kong SAR", m49 := 344, region := "Asia",
     subregion := "Eastern Asia", iso3 := "HKG", iso2 := "HK", ldcMarker := "" },
   { country := "China, Macao SAR", m49 := 446, region := "Asia",
     subregion := "Eastern Asia", iso3 := "MAC", iso2 := "MO", ldcMarker := "" },
   { country := "Aland Islands", m49 := 248, region := "Europe",
     subregion := "Northern Europe", iso3 := "ALA", iso2 := "AX", ldcMarker := "" },
   { country := "Western Sahara", m49 := 732, region := "Africa",
     subregion := "Northern Africa", iso3 := "ESH", iso2 := "EH", ldcMarker := "" }]

/-- Sample raw centroid rows sharing one iso code, a shape the cleaning does
not reject. -/
def exRawTriple : List RawCentroidRow :=
  [{ country := "Alpha", iso := "XX", countryaff := "", aff_iso := "",
     latitude := ⟨1, 0⟩, longitude := ⟨1, 0⟩ },
   { country := "Beta", iso := "XX", countryaff := "", aff_iso := "",
     latitude := ⟨2, 0⟩, longitude := ⟨2, 0⟩ },
   { country := "Gamma", iso := "XX", countryaff := "", aff_iso := "",
     latitude := ⟨3, 0⟩, longitude := ⟨3, 0⟩ }]

/-- Sample raw classification rows sharing the iso2 code of exRawTriple. -/
def exRawUnXX : List RawUnRow :=
  [{ country := "Alpha", m49 := 901, region := "Oceania", subregion := "Melanesia",
     iso3 := "XXA", iso2 := "XX", ldcMarker := "" },
   { country := "Beta", m49 := 902, region := "Oceania", subregion := "Melanesia",
     iso3 := "XXB", iso2 := "XX", ldcMarker := "x" }]

theorem charListLE_total (as : List Char) : ∀ bs, charListLE as bs = true ∨ charListLE bs as = true := by
  induction as with
  | nil => intro bs; left; rfl
  | cons a as ih =>
    intro bs
    cases bs with
    | nil => right; rfl
    | cons b bs =>
      rcases Nat.lt_trichotomy a.toNat b.toNat with h | h | h
      · left; simp [charListLE, h]
      · have h1 : ¬ a.toNat < b.toNat := by omega
        have h2 : ¬ b.toNat < a.toNat := by omega
        rcases ih bs with hc | hc
        · left; simp [charListLE, h1, h2, hc]
        · right; simp [charListLE, h1, h2, hc]
      · right; simp [charListLE, h]

theorem charListLE_trans :
    ∀ as bs cs : List Char, charListLE as bs = true → charListLE bs cs = true →
      charListLE as cs = true := by
  intro as
  induction as with
  | nil => intro bs cs _ _; rfl
  | cons a as ih =>
    intro bs cs h1 h2
    cases bs with
    | nil => simp [charListLE] at h1
    | cons b bs =>
      cases cs with
      | nil => simp [charListLE] at h2
      | cons c cs =>
        rcases Nat.lt_trichotomy a.toNat b.toNat with hab | hab | hab
        · rcases Nat.lt_trichotomy b.toNat c.toNat with hbc | hbc | hbc
          · simp [charListLE, Nat.lt_trans hab hbc]
          · simp [charListLE, show a.toNat < c.toNat by omega]
          · simp [charListLE, show ¬ b.toNat < c.toNat by omega, hbc] at h2
        · rcases Nat.lt_trichotomy b.toNat c.toNat with hbc | hbc | hbc
          · simp [charListLE, show a.toNat < c.toNat by omega]
          · simp only [charListLE, show ¬ a.toNat < b.toNat by omega,
              show ¬ b.toNat < a.toNat by omega, if_false, ite_false, if_neg,
              Nat.lt_irrefl] at h1
            simp only [charListLE, show ¬ b.toNat < c.toNat by omega,
              show ¬ c.toNat < b.toNat by omega, ite_false, if_neg] at h2
            simp only [charListLE, show ¬ a.toNat < c.toNat by omega,
              show ¬ c.toNat < a.toNat by omega, ite_false, if_neg]
            exact ih bs cs h1 h2
          · simp [charListLE, show ¬ b.toNat < c.toNat by omega, hbc] at h2
        · simp [charListLE, show ¬ a.toNat < b.toNat by omega, hab] at h1

theorem strLE_total (a b : String) : strLE a b = true ∨ strLE b a = true :=
  charListLE_total a.data b.data

theorem strLE_trans {a b c : String} (h1 : strLE a b = true) (h2 : strLE b c = true) :
    strLE a c = true :=
  charListLE_trans a.data b.data c.data h1 h2

theorem countryLE_total (a b : Option String) : countryLE a b = true ∨ countryLE b a = true := by
  cases a with
  | none => cases b with
    | none => left; rfl
    | some b => right; rfl
  | some a => cases b with
    | none => left; rfl
    | some b => exact strLE_total a b

theorem countryLE_trans {a b c : Option String} (h1 : countryLE a b = true)
    (h2 : countryLE b c = true) : countryLE a c = true := by
  cases c with
  | none => cases a <;> rfl
  | some c =>
    cases b with
    | none => simp [countryLE] at h2
    | some b =>
      cases a with
      | none => simp [countryLE] at h1
      | some a => exact strLE_trans h1 h2

theorem sameExceptComtrade_refl (a : Row) : sameExceptComtrade a a :=
  ⟨rfl, rfl, rfl, rfl, rfl, rfl, rfl, rfl, rfl, rfl⟩

theorem sameExceptComtrade_trans {a b c : Row} (h1 : sameExceptComtrade a b)
    (h2 : sameExceptComtrade b c) : sameExceptComtrade a c := by
  obtain ⟨e1, e2, e3, e4, e5, e6, e7, e8, e9, e10⟩ := h1
  obtain ⟨f1, f2, f3, f4, f5, f6, f7, f8, f9, f10⟩ := h2
  exact ⟨e1.trans f1, e2.trans f2, e3.trans f3, e4.trans f4, e5.trans f5,
    e6.trans f6, e7.trans f7, e8.trans f8, e9.trans f9, e10.trans f10⟩

theorem overrideFn_same (p : Int × String) (r : Row) :
    sameExceptComtrade (overrideFn p r) r := by
  unfold overrideFn
  split
  · exact ⟨rfl, rfl, rfl, rfl, rfl, rfl, rfl, rfl, rfl, rfl⟩
  · exact sameExceptComtrade_refl r

theorem overrideFn_country (p : Int × String) (r : Row) :
    (overrideFn p r).country = r.country :=
  (overrideFn_same p r).2.2.2.2.2.2.1

theorem overrideFn_eq_of_ne {p : Int × String} {r : Row} (h : r.country ≠ some p.2) :
    overrideFn p r = r := by
  unfold overrideFn
  exact if_neg h

theorem applyAll_cons (p : Int × String) (L : List (Int × String)) (r : Row) :
    applyAll (p :: L) r = applyAll L (overrideFn p r) :=
  rfl

theorem applyAll_same (L : List (Int × String)) (r : Row) :
    sameExceptComtrade (applyAll L r) r := by
  induction L generalizing r with
  | nil => exact sameExceptComtrade_refl r
  | cons p L ih =>
    rw [applyAll_cons]
    exact sameExceptComtrade_trans (ih (overrideFn p r)) (overrideFn_same p r)

theorem applyAll_country (L : List (Int × String)) (r : Row) :
    (applyAll L r).country = r.country :=
  (applyAll_same L r).2.2.2.2.2.2.1

theorem applyAll_comtrade_of_not_mem {L : List (Int × String)} {r : Row}
    (h : ∀ p ∈ L, r.country ≠ some p.2) :
    (applyAll L r).m49_comtrade = r.m49_comtrade := by
  induction L with
  | nil => rfl
  | cons p L ih =>
    rw [applyAll_cons, overrideFn_eq_of_ne (h p (List.mem_cons_self p L))]
    exact ih (fun q hq => h q (List.mem_cons_of_mem p hq))

theorem applyAll_comtrade_of_mem {L : List (Int × String)} {p : Int × String} {r : Row}
    (hnd : (L.map Prod.snd).Nodup) (hp : p ∈ L) (hc : r.country = some p.2) :
    (applyAll L r).m49_comtrade = some p.1 := by
  induction L generalizing r with
  | nil => cases hp
  | cons q L ih =>
    rw [List.map_cons, List.nodup_cons] at hnd
    rcases List.mem_cons.mp hp with rfl | hpL
    · rw [applyAll_cons]
      have hover : overrideFn p r = { r with m49_comtrade := some p.1 } := if_pos hc
      rw [hover]
      have hnot : ∀ x ∈ L, ({ r with m49_comtrade := some p.1 } : Row).country ≠ some x.2 := by
        intro x hx hcx
        have : x.2 = p.2 := by
          have : ({ r with m49_comtrade := some p.1 } : Row).country = r.country := rfl
          rw [this, hc] at hcx
          exact (Option.some.inj hcx).symm
        exact hnd.1 (this ▸ List.mem_map_of_mem Prod.snd hx)
      rw [applyAll_comtrade_of_not_mem hnot]
    · rw [applyAll_cons]
      have hne : r.country ≠ some q.2 := by
        intro hcq
        rw [hc] at hcq
        have : p.2 = q.2 := Option.some.inj hcq
        exact hnd.1 (this ▸ List.mem_map_of_mem Prod.snd hpL)
      rw [overrideFn_eq_of_ne hne]
      exact ih hnd.2 hpL hc

theorem applyAll_comtrade_isSome (L : List (Int × String)) (r : Row) :
    (applyAll L r).m49_comtrade.isSome = true ↔
      (r.m49_comtrade.isSome = true ∨ ∃ p ∈ L, r.country = some p.2) := by
  induction L generalizing r with
  | nil => simp [applyAll]
  | cons q L ih =>
    rw [applyAll_cons]
    by_cases h : r.country = some q.2
    · have hover : overrideFn q r = { r with m49_comtrade := some q.1 } := if_pos h
      rw [hover, ih]
      constructor
      · intro _; right; exact ⟨q, List.mem_cons_self q L, h⟩
      · intro _
        left
        rfl
    · rw [overrideFn_eq_of_ne h, ih]
      constructor
      · intro hh
        rcases hh with hh | ⟨p, hp, hcp⟩
        · exact Or.inl hh
        · exact Or.inr ⟨p, List.mem_cons_of_mem q hp, hcp⟩
      · intro hh
        rcases hh with hh | ⟨p, hp, hcp⟩
        · exact Or.inl hh
        · rcases List.mem_cons.mp hp with rfl | hpL
          · exact absurd hcp h
          · exact Or.inr ⟨p, hpL, hcp⟩

theorem any_country_map_overrideFn (p : Int × String) (n : String) (rows : List Row) :
    (rows.map (overrideFn p)).any (fun r => decide (r.country = some n)) =
      rows.any (fun r => decide (r.country = some n)) := by
  rw [List.any_map]
  have : ((fun r : Row => decide (r.country = some n)) ∘ overrideFn p) =
      (fun r : Row => decide (r.country = some n)) := by
    funext r
    simp [Function.comp, overrideFn_country]
  rw [this]

theorem comtradeFold_fst (L : List (Int × String)) :
    ∀ (rows : List Row) (ws : List String),
      (comtradeFold L (rows, ws)).1 = rows.map (applyAll L) := by
  induction L with
  | nil =>
    intro rows ws
    simp only [comtradeFold, List.foldl_nil]
    have : rows.map (applyAll []) = rows.map id :=
      List.map_congr_left (fun r _ => rfl)
    rw [this, List.map_id]
  | cons p L ih =>
    intro rows ws
    unfold comtradeFold at ih ⊢
    rw [List.foldl_cons]
    by_cases h : rows.any (fun r => decide (r.country = some p.2)) = true
    · simp only [h, if_true]
      rw [ih, List.map_map]
      rfl
    · simp only [h, if_false, Bool.false_eq_true]
      rw [ih]
      apply List.map_congr_left
      intro r hr
      have hne : r.country ≠ some p.2 := by
        intro hc
        apply h
        exact List.any_eq_true.mpr ⟨r, hr, by simp [hc]⟩
      rw [applyAll_cons, overrideFn_eq_of_ne hne]

theorem comtradeFold_snd (L : List (Int × String)) :
    ∀ (rows : List Row) (ws : List String),
      (comtradeFold L (rows, ws)).2 =
        ws ++ (L.filter (fun p => !(rows.any (fun r => decide (r.country = some p.2))))).map
          (fun p => countryNotFoundMsg p.2) := by
  induction L with
  | nil =>
    intro rows ws
    simp [comtradeFold]
  | cons p L ih =>
    intro rows ws
    unfold comtradeFold at ih ⊢
    rw [List.foldl_cons]
    by_cases h : rows.any (fun r => decide (r.country = some p.2)) = true
    · simp only [h, if_true]
      rw [ih]
      congr 1
      rw [List.filter_cons, h]
      simp only [Bool.not_true, Bool.false_eq_true, if_false]
      apply congrArg
      apply List.filter_congr
      intro q _
      rw [any_country_map_overrideFn]
    · simp only [h, if_false, Bool.false_eq_true]
      rw [ih, List.filter_cons]
      have hfalse : (rows.any (fun r => decide (r.country = some p.2))) = false :=
        Bool.not_eq_true _ ▸ eq_false_of_ne_true h
      rw [hfalse]
      simp

theorem comtradeStep_fst (rows : List Row) :
    (comtradeStep rows).1 = rows.map (applyAll alternate_comtrade_m49_codes) :=
  comtradeFold_fst alternate_comtrade_m49_codes rows []

theorem comtradeStep_snd (rows : List Row) :
    (comtradeStep rows).2 =
      (alternate_comtrade_m49_codes.filter
        (fun p => !(rows.any (fun r => decide (r.country = some p.2))))).map
        (fun p => countryNotFoundMsg p.2) := by
  rw [comtradeStep, comtradeFold_snd, List.nil_append]

theorem length_filter_add_not {α : Type} (p : α → Bool) (l : List α) :
    (l.filter p).length + (l.filter (fun a => !(p a))).length = l.length := by
  induction l with
  | nil => rfl
  | cons a l ih =>
    by_cases h : p a = true
    · simp only [List.filter_cons, h, Bool.not_true, if_true, Bool.false_eq_true, if_false,
        List.length_cons]
      omega
    · have h' : p a = false := eq_false_of_ne_true h
      simp only [List.filter_cons, h', Bool.not_false, Bool.false_eq_true, if_false, if_true,
        List.length_cons]
      omega

theorem length_filter_or_le {α : Type} (p q : α → Bool) (l : List α) :
    (l.filter (fun a => p a || q a)).length ≤ (l.filter p).length + (l.filter q).length := by
  induction l with
  | nil => simp
  | cons a l ih =>
    rcases Bool.eq_false_or_eq_true (p a) with hp | hp <;>
      rcases Bool.eq_false_or_eq_true (q a) with hq | hq <;>
      simp only [List.filter_cons, hp, hq, Bool.true_or, Bool.false_or, Bool.or_false,
        Bool.or_true, if_true, Bool.false_eq_true, if_false, List.length_cons] <;>
      omega

theorem length_filter_key_le_one {α β : Type} [DecidableEq β] (f : α → β) (k : β) :
    ∀ l : List α, (l.map f).Nodup → (l.filter (fun a => decide (f a = k))).length ≤ 1 := by
  intro l
  induction l with
  | nil => intro _; simp
  | cons a l ih =>
    intro h
    rw [List.map_cons, List.nodup_cons] at h
    by_cases hk : f a = k
    · have hnil : l.filter (fun a => decide (f a = k)) = [] := by
        rw [List.filter_eq_nil_iff]
        intro b hb hfb
        rw [decide_eq_true_eq] at hfb
        exact h.1 ((hfb.trans hk.symm) ▸ List.mem_map_of_mem f hb)
      simp [List.filter_cons, hk, hnil]
    · simpa [List.filter_cons, hk] using ih h.2

theorem le_length_flatMap {α β : Type} (f : α → List β) (l : List α)
    (h : ∀ x ∈ l, 1 ≤ (f x).length) : l.length ≤ (l.flatMap f).length := by
  induction l with
  | nil => simp
  | cons a l ih =>
    rw [List.flatMap_cons, List.length_append, List.length_cons]
    have h1 := h a (List.mem_cons_self a l)
    have h2 := ih (fun x hx => h x (List.mem_cons_of_mem a hx))
    omega

theorem length_flatMap_le {α β : Type} (f : α → List β) (l : List α)
    (h : ∀ x ∈ l, (f x).length ≤ 1) : (l.flatMap f).length ≤ l.length := by
  induction l with
  | nil => simp
  | cons a l ih =>
    rw [List.flatMap_cons, List.length_append, List.length_cons]
    have h1 := h a (List.mem_cons_self a l)
    have h2 := ih (fun x hx => h x (List.mem_cons_of_mem a hx))
    omega

theorem mem_mergeOuter {un : List UnRow} {cents : List CentroidRow} {r : MergedRow} :
    r ∈ mergeOuter un cents ↔
      ((∃ u ∈ un, (centroidMatches cents u).isEmpty = true ∧ r = unOnlyRow u) ∨
       (∃ u ∈ un, ∃ c ∈ centroidMatches cents u, r = bothRow u c) ∨
       (∃ c ∈ cents, centMatched un c = false ∧ r = centOnlyRow c)) := by
  constructor
  · intro h
    rcases List.mem_append.mp h with h | h
    · rcases List.mem_flatMap.mp h with ⟨u, hu, hr⟩
      by_cases he : (centroidMatches cents u).isEmpty = true
      · rw [if_pos he] at hr
        exact Or.inl ⟨u, hu, he, List.mem_singleton.mp hr⟩
      · rw [if_neg he] at hr
        rcases List.mem_map.mp hr with ⟨c, hc, hcr⟩
        exact Or.inr (Or.inl ⟨u, hu, c, hc, hcr.symm⟩)
    · rcases List.mem_map.mp h with ⟨c, hc, hcr⟩
      rcases List.mem_filter.mp hc with ⟨hcm, hflag⟩
      refine Or.inr (Or.inr ⟨c, hcm, ?_, hcr.symm⟩)
      simpa using hflag
  · intro h
    rcases h with ⟨u, hu, he, hr⟩ | ⟨u, hu, c, hc, hr⟩ | ⟨c, hc, hm, hr⟩
    · refine List.mem_append.mpr (Or.inl (List.mem_flatMap.mpr ⟨u, hu, ?_⟩))
      rw [if_pos he, hr]
      exact List.mem_singleton.mpr rfl
    · refine List.mem_append.mpr (Or.inl (List.mem_flatMap.mpr ⟨u, hu, ?_⟩))
      have he : ¬ (centroidMatches cents u).isEmpty = true := by
        rw [List.isEmpty_iff]
        exact List.ne_nil_of_mem hc
      rw [if_neg he]
      exact List.mem_map.mpr ⟨c, hc, hr.symm⟩
    · refine List.mem_append.mpr (Or.inr (List.mem_map.mpr ⟨c, ?_, hr.symm⟩))
      exact List.mem_filter.mpr ⟨hc, by rw [hm]; rfl⟩

theorem unmatched_centOnly_mem {un : List UnRow} {cents : List CentroidRow} {c : CentroidRow}
    (hc : c ∈ cents) (hm : centMatched un c = false) :
    centOnlyRow c ∈ mergeOuter un cents :=
  mem_mergeOuter.mpr (Or.inr (Or.inr ⟨c, hc, hm, rfl⟩))

theorem mergeOuter_m49_none {un : List UnRow} {cents : List CentroidRow} {r : MergedRow}
    (hr : r ∈ mergeOuter un cents) (hm : r.m49 = none) :
    ∃ c ∈ cents, centMatched un c = false ∧ r = centOnlyRow c := by
  rcases mem_mergeOuter.mp hr with ⟨u, _, _, hru⟩ | ⟨u, _, c, _, hru⟩ | hcent
  · rw [hru] at hm; cases hm
  · rw [hru] at hm; cases hm
  · exact hcent

theorem le_length_mergeFlat (un : List UnRow) (cents : List CentroidRow) :
    un.length ≤ (un.flatMap (fun u => if (centroidMatches cents u).isEmpty then [unOnlyRow u]
      else (centroidMatches cents u).map (bothRow u))).length := by
  apply le_length_flatMap
  intro u _
  dsimp only
  by_cases he : (centroidMatches cents u).isEmpty = true
  · simp [he]
  · rw [if_neg he, List.length_map]
    have hne : centroidMatches cents u ≠ [] := by
      intro hnil
      exact he (List.isEmpty_iff.mpr hnil)
    have := List.length_pos.mpr hne
    omega

theorem length_mergeOuter_lower_un (un : List UnRow) (cents : List CentroidRow) :
    un.length ≤ (mergeOuter un cents).length := by
  rw [mergeOuter, List.length_append]
  have h := le_length_mergeFlat un cents
  omega

theorem length_mergeOuter_upper (un : List UnRow) (cents : List CentroidRow)
    (hnd : (cents.map CentroidRow.iso).Nodup) :
    (mergeOuter un cents).length ≤ un.length + cents.length := by
  rw [mergeOuter, List.length_append]
  have hleft : (un.flatMap (fun u => if (centroidMatches cents u).isEmpty then [unOnlyRow u]
      else (centroidMatches cents u).map (bothRow u))).length ≤ un.length := by
    apply length_flatMap_le
    intro u _
    dsimp only
    by_cases he : (centroidMatches cents u).isEmpty = true
    · simp [he]
    · rw [if_neg he, List.length_map]
      exact length_filter_key_le_one CentroidRow.iso u.iso2 cents hnd
  have hright : ((cents.filter (fun c => !(centMatched un c))).map centOnlyRow).length ≤
      cents.length := by
    rw [List.length_map]
    exact List.length_filter_le _ cents
  omega

theorem length_filter_matched_le (un : List UnRow) (cents : List CentroidRow)
    (hnd : (cents.map CentroidRow.iso).Nodup) :
    (cents.filter (centMatched un)).length ≤ un.length := by
  induction un with
  | nil =>
    have : cents.filter (centMatched []) = [] := by
      rw [List.filter_eq_nil_iff]
      intro c _ hc
      simp [centMatched] at hc
    simp [this]
  | cons u un ih =>
    have heq : cents.filter (centMatched (u :: un)) =
        cents.filter (fun c => decide (c.iso = u.iso2) || centMatched un c) := by
      apply List.filter_congr
      intro c _
      simp only [centMatched, List.any_cons]
      congr 1
      exact decide_eq_decide.mpr eq_comm
    rw [heq]
    have h1 := length_filter_or_le (fun c => decide (c.iso = u.iso2)) (centMatched un) cents
    have h2 := length_filter_key_le_one CentroidRow.iso u.iso2 cents hnd
    have h3 := ih
    rw [List.length_cons]
    omega

theorem length_mergeOuter_lower_cents (un : List UnRow) (cents : List CentroidRow)
    (hnd : (cents.map CentroidRow.iso).Nodup) :
    cents.length ≤ (mergeOuter un cents).length := by
  have hsplit := length_filter_add_not (centMatched un) cents
  have hflat := le_length_mergeFlat un cents
  have hmatched := length_filter_matched_le un cents hnd
  rw [mergeOuter, List.length_append, List.length_map]
  omega

theorem list_any_map {α β : Type} (f : α → β) (l : List α) (p : β → Bool) :
    (l.map f).any p = l.any (fun a => p (f a)) := by
  induction l with
  | nil => rfl
  | cons a l ih => simp [List.any_cons, ih]

theorem mergeOuter_complete_un (un : List UnRow) (cents : List CentroidRow) :
    ∀ u ∈ un, ∃ r ∈ mergeOuter un cents, unSide u r := by
  intro u hu
  by_cases he : (centroidMatches cents u).isEmpty = true
  · exact ⟨unOnlyRow u, mem_mergeOuter.mpr (Or.inl ⟨u, hu, he, rfl⟩),
      by simp [unSide, unOnlyRow]⟩
  · have hne : centroidMatches cents u ≠ [] := fun hnil => he (List.isEmpty_iff.mpr hnil)
    obtain ⟨c, hc⟩ := List.exists_mem_of_ne_nil _ hne
    exact ⟨bothRow u c, mem_mergeOuter.mpr (Or.inr (Or.inl ⟨u, hu, c, hc, rfl⟩)),
      by simp [unSide, bothRow]⟩

theorem mergeOuter_complete_cents (un : List UnRow) (cents : List CentroidRow) :
    ∀ c ∈ cents, ∃ r ∈ mergeOuter un cents, centSide c r := by
  intro c hc
  by_cases hm : centMatched un c = true
  · obtain ⟨u, hu, hdec⟩ := List.any_eq_true.mp hm
    have heq : u.iso2 = c.iso := of_decide_eq_true hdec
    have hcm : c ∈ centroidMatches cents u :=
      List.mem_filter.mpr ⟨hc, decide_eq_true heq.symm⟩
    exact ⟨bothRow u c, mem_mergeOuter.mpr (Or.inr (Or.inl ⟨u, hu, c, hcm, rfl⟩)),
      by simp [centSide, bothRow]⟩
  · have hm' : centMatched un c = false := eq_false_of_ne_true hm
    exact ⟨centOnlyRow c, unmatched_centOnly_mem hc hm', by simp [centSide, centOnlyRow]⟩

theorem mergeOuter_country {un : List UnRow} {cents : List CentroidRow} {r : MergedRow}
    (hr : r ∈ mergeOuter un cents) :
    r.country = none ∨ ∃ c ∈ cents, r.country = some c.country := by
  rcases mem_mergeOuter.mp hr with ⟨u, _, _, hru⟩ | ⟨u, _, c, hc, hru⟩ | ⟨c, hc, _, hru⟩
  · exact Or.inl (by rw [hru]; rfl)
  · exact Or.inr ⟨c, List.mem_of_mem_filter hc, by rw [hru]; rfl⟩
  · exact Or.inr ⟨c, hc, by rw [hru]; rfl⟩

theorem preRows_eq (un : List UnRow) (cents : List CentroidRow) :
    preRows un cents =
      (mergeOuter un cents).map (fun m => applyAll alternate_comtrade_m49_codes (toRow m)) ++
        m49_non_country.map nonCountryRow := by
  rw [preRows, comtradeStep_fst, List.map_map]
  rfl

theorem preRows_length (un : List UnRow) (cents : List CentroidRow) :
    (preRows un cents).length = (mergeOuter un cents).length + 7 := by
  rw [preRows_eq, List.length_append, List.length_map]
  rfl

theorem reconcile_eq_some {un : List UnRow} {cents : List CentroidRow} {out : List Row} :
    reconcile un cents = some out ↔
      ((preRows un cents).all (fun r => r.m49_comtrade.isSome) = true ∧
       out = List.insertionSort rowLE (preRows un cents)) := by
  unfold reconcile
  by_cases h : (preRows un cents).all (fun r => r.m49_comtrade.isSome) = true
  · rw [if_pos h]
    constructor
    · intro hsome
      exact ⟨h, (Option.some.inj hsome).symm⟩
    · rintro ⟨_, rfl⟩
      rfl
  · rw [if_neg h]
    constructor
    · intro hnone
      cases hnone
    · rintro ⟨hall, _⟩
      exact absurd hall h

theorem reconcile_isSome {un : List UnRow} {cents : List CentroidRow} :
    (reconcile un cents).isSome = true ↔
      (preRows un cents).all (fun r => r.m49_comtrade.isSome) = true := by
  unfold reconcile
  by_cases h : (preRows un cents).all (fun r => r.m49_comtrade.isSome) = true <;>
    simp [h]

theorem writeTable_eq_some {un : List UnRow} {cents : List CentroidRow}
    {f : List String × List OutRow} :
    writeTable un cents = some f ↔
      ∃ out, reconcile un cents = some out ∧ f = (output_columns, out.map selectColumns) := by
  unfold writeTable
  cases h : reconcile un cents with
  | none =>
    constructor
    · intro hf; cases hf
    · rintro ⟨out, hout, _⟩
      cases hout
  | some rows =>
    constructor
    · intro hf
      exact ⟨rows, rfl, (Option.some.inj hf).symm⟩
    · rintro ⟨out, hout, rfl⟩
      rw [Option.some.inj hout]

theorem writeTable_isSome (un : List UnRow) (cents : List CentroidRow) :
    (writeTable un cents).isSome = (reconcile un cents).isSome := by
  unfold writeTable
  cases reconcile un cents <;> rfl

theorem cleanCentroids_perm (raw : List RawCentroidRow) :
    (cleanCentroids raw).Perm ((raw.filter keepRow).map (fun r => projectRow (stripRow r))) := by
  rw [cleanCentroids]
  have h := (List.perm_insertionSort rawIsoLE ((raw.filter keepRow).map stripRow)).map projectRow
  rw [List.map_map] at h
  exact h

theorem sorted_insertionSort_rowLE (l : List Row) :
    List.Sorted rowLE (List.insertionSort rowLE l) :=
  @List.sorted_insertionSort Row rowLE _
    ⟨fun a b => countryLE_total a.country b.country⟩
    ⟨fun _ _ _ h1 h2 => countryLE_trans h1 h2⟩ l

theorem sorted_insertionSort_rawIsoLE (l : List RawCentroidRow) :
    List.Sorted rawIsoLE (List.insertionSort rawIsoLE l) :=
  @List.sorted_insertionSort RawCentroidRow rawIsoLE _
    ⟨fun a b => strLE_total a.iso b.iso⟩
    ⟨fun _ _ _ h1 h2 => strLE_trans h1 h2⟩ l

/-- C1 counterexample: the merged row count can exceed the sum of the two
input counts.  When the cleaned tables share a duplicated join key (three
centroid rows and two classification rows with iso XX), the outer join fans
out to six XX rows, and with the four manual centroid rows the merged table
has ten rows against an input total of nine. -/
theorem outer_join_count_cex :
    (mergeOuter (fetch_un_data exRawUnXX) (fetch_centroids exRawTriple)).length = 10 ∧
    (fetch_un_data exRawUnXX).length + (fetch_centroids exRawTriple).length = 9 := by
  exact ⟨by decide, by decide⟩

/-- C1 (amended): provided the cleaned centroid table has pairwise-distinct
iso codes (which the exclusion list is designed to ensure on the real data,
but which arbitrary inputs can violate), every cleaned classification row and
every cleaned centroid row appears in the merged table, either joined to a
partner on iso2 or alone with the other side missing; the merged row count
lies between max of the two input counts and their sum; and when the output
is written it holds every merged row (with its merge-time fields intact) plus
the seven synthetic rows, so no country row is dropped between the merge and
the written output. -/
theorem outer_join_completeness (un : List UnRow) (cents : List CentroidRow)
    (hnd : (cents.map CentroidRow.iso).Nodup) :
    (∀ u ∈ un, ∃ r ∈ mergeOuter un cents, unSide u r) ∧
    (∀ c ∈ cents, ∃ r ∈ mergeOuter un cents, centSide c r) ∧
    un.length ≤ (mergeOuter un cents).length ∧
    cents.length ≤ (mergeOuter un cents).length ∧
    (mergeOuter un cents).length ≤ un.length + cents.length ∧
    (∀ f, writeTable un cents = some f →
      f.2.length = (mergeOuter un cents).length + 7 ∧
      ∀ m ∈ mergeOuter un cents, ∃ o ∈ f.2, outFromMerged m o) := by
  refine ⟨mergeOuter_complete_un un cents, mergeOuter_complete_cents un cents,
    length_mergeOuter_lower_un un cents, length_mergeOuter_lower_cents un cents hnd,
    length_mergeOuter_upper un cents hnd, ?_⟩
  intro f hf
  obtain ⟨out, hout, rfl⟩ := writeTable_eq_some.mp hf
  obtain ⟨hall, hsort⟩ := reconcile_eq_some.mp hout
  have hperm : out.Perm (preRows un cents) := by
    rw [hsort]
    exact List.perm_insertionSort rowLE _
  constructor
  · calc (out.map selectColumns).length = out.length := List.length_map out selectColumns
      _ = (preRows un cents).length := hperm.length_eq
      _ = (mergeOuter un cents).length + 7 := preRows_length un cents
  · intro m hm
    have hmem : applyAll alternate_comtrade_m49_codes (toRow m) ∈ preRows un cents := by
      rw [preRows_eq]
      exact List.mem_append_left _ (List.mem_map.mpr ⟨m, hm, rfl⟩)
    have hmemout : applyAll alternate_comtrade_m49_codes (toRow m) ∈ out :=
      hperm.mem_iff.mpr hmem
    refine ⟨selectColumns (applyAll alternate_comtrade_m49_codes (toRow m)),
      List.mem_map_of_mem selectColumns hmemout, ?_⟩
    obtain ⟨e1, e2, e3, e4, e5, e6, e7, e8, e9, e10⟩ :=
      applyAll_same alternate_comtrade_m49_codes (toRow m)
    exact ⟨e1, e2, e7, e5, e4, e3, e8, e9, e6⟩

/-- Witness for C1 at concrete inputs: the two count bounds evaluated on the
sample run (four classification rows, the four manual centroid rows). -/
theorem outer_join_completeness_witness :
    (fetch_un_data exRawUnFour).length ≤
        (mergeOuter (fetch_un_data exRawUnFour) (fetch_centroids [])).length ∧
      (mergeOuter (fetch_un_data exRawUnFour) (fetch_centroids [])).length ≤
        (fetch_un_data exRawUnFour).length + (fetch_centroids []).length :=
  ⟨(outer_join_completeness (fetch_un_data exRawUnFour) (fetch_centroids [])
      (by decide)).2.2.1,
   (outer_join_completeness (fetch_un_data exRawUnFour) (fetch_centroids [])
      (by decide)).2.2.2.2.1⟩

/-- C2: after the merge, m49_comtrade starts as m49 on every row; every row
whose country equals an override name ends with the override code; a row
whose country matches no override name keeps m49_comtrade = m49; every other
column is untouched; and one diagnostic is emitted, without aborting, for
exactly the overrides whose name appears on no row. -/
theorem comtrade_remapping (merged : List MergedRow) :
    ((comtradeStep (merged.map toRow)).1.length = merged.length) ∧
    (∀ i : Fin merged.length,
      ∃ h : (i : Nat) < (comtradeStep (merged.map toRow)).1.length,
        sameExceptComtrade ((comtradeStep (merged.map toRow)).1.get ⟨i, h⟩)
          (toRow (merged.get i)) ∧
        (∀ p ∈ alternate_comtrade_m49_codes, (merged.get i).country = some p.2 →
          ((comtradeStep (merged.map toRow)).1.get ⟨i, h⟩).m49_comtrade = some p.1) ∧
        ((∀ p ∈ alternate_comtrade_m49_codes, (merged.get i).country ≠ some p.2) →
          ((comtradeStep (merged.map toRow)).1.get ⟨i, h⟩).m49_comtrade =
            (merged.get i).m49)) ∧
    ((comtradeStep (merged.map toRow)).2 =
      (alternate_comtrade_m49_codes.filter
        (fun p => !(merged.any (fun m => decide (m.country = some p.2))))).map
        (fun p => countryNotFoundMsg p.2)) := by
  have hrows : (comtradeStep (merged.map toRow)).1 =
      merged.map (fun m => applyAll alternate_comtrade_m49_codes (toRow m)) := by
    rw [comtradeStep_fst, List.map_map]
    rfl
  refine ⟨by rw [hrows, List.length_map], ?_, ?_⟩
  · intro i
    have h : (i : Nat) < (comtradeStep (merged.map toRow)).1.length := by
      rw [hrows, List.length_map]
      exact i.isLt
    have hget : (comtradeStep (merged.map toRow)).1.get ⟨i, h⟩ =
        applyAll alternate_comtrade_m49_codes (toRow (merged.get i)) := by
      simp only [List.get_eq_getElem, hrows, List.getElem_map]
    refine ⟨h, ?_, ?_, ?_⟩
    · rw [hget]
      exact applyAll_same _ _
    · intro p hp hc
      rw [hget]
      exact applyAll_comtrade_of_mem (by decide) hp
        (show (toRow (merged.get i)).country = some p.2 from hc)
    · intro hnone
      rw [hget]
      exact applyAll_comtrade_of_not_mem (fun p hp => hnone p hp)
  · rw [comtradeStep_snd]
    congr 1
    apply List.filter_congr
    intro p _
    rw [list_any_map]
    rfl

/-- Witness for C2 on a sample run: the France row, merged from the sample
tables, ends with the override Comtrade code 251. -/
theorem comtrade_remapping_witness :
    ∃ h : (0 : Nat) < (comtradeStep ((mergeOuter (fetch_un_data [exRawUnFrance])
        (fetch_centroids [exRawFrance])).map toRow)).1.length,
      ((comtradeStep ((mergeOuter (fetch_un_data [exRawUnFrance])
        (fetch_centroids [exRawFrance])).map toRow)).1.get ⟨0, h⟩).m49_comtrade =
        some 251 := by
  obtain ⟨h, _, hover, _⟩ :=
    (comtrade_remapping (mergeOuter (fetch_un_data [exRawUnFrance])
      (fetch_centroids [exRawFrance]))).2.1 ⟨0, by decide⟩
  exact ⟨h, hover (251, "France") (by decide) (by decide)⟩

/-- C3 counterexample: the cleaned classification table does not carry the
country name into the merge.  With the France classification row as sole
classification input and no raw centroid rows, no merged row carries the
country France — the name was discarded by the column selection of
fetch_un_data. -/
theorem classification_country_dropped_cex :
    (fetch_un_data [exRawUnFrance]).length = 1 ∧
    exRawUnFrance.country = "France" ∧
    ∀ r ∈ mergeOuter (fetch_un_data [exRawUnFrance]) (fetch_centroids []),
      r.country ≠ some "France" := by decide

/-- C3 (amended): the cleaned classification table has exactly the fields
region, subregion, m49, iso3, iso2 and the derived ldc flag — the country
column is discarded by the final column selection of fetch_un_data — so a
classification row does not carry its country name into the merge: the
country field of every merged row is either absent or drawn from a centroid
row. -/
theorem classification_fields (raw : List RawUnRow) :
    ((fetch_un_data raw).length = raw.length) ∧
    (∀ i : Fin raw.length,
      ∃ h : (i : Nat) < (fetch_un_data raw).length,
        (fetch_un_data raw).get ⟨i, h⟩ =
          { region := (raw.get i).region, subregion := (raw.get i).subregion,
            m49 := (raw.get i).m49, iso3 := (raw.get i).iso3,
            iso2 := (raw.get i).iso2, ldc := decide ((raw.get i).ldcMarker = "x") }) ∧
    (∀ (un : List UnRow) (cents : List CentroidRow), ∀ r ∈ mergeOuter un cents,
      r.country = none ∨ ∃ c ∈ cents, r.country = some c.country) := by
  refine ⟨List.length_map raw _, ?_, ?_⟩
  · intro i
    have h : (i : Nat) < (fetch_un_data raw).length := by
      rw [fetch_un_data, List.length_map]
      exact i.isLt
    refine ⟨h, ?_⟩
    simp only [fetch_un_data, List.get_eq_getElem, List.getElem_map]
  · intro un cents r hr
    exact mergeOuter_country hr

/-- Witness for C3 at a concrete input: the cleaned France row consists of
exactly the six selected fields. -/
theorem classification_fields_witness :
    ∃ h : (0 : Nat) < (fetch_un_data [exRawUnFrance]).length,
      (fetch_un_data [exRawUnFrance]).get ⟨0, h⟩ =
        { region := "Europe", subregion := "Western Europe", m49 := 250,
          iso3 := "FRA", iso2 := "FR", ldc := false } := by
  obtain ⟨h, heq⟩ := (classification_fields [exRawUnFrance]).2.1 ⟨0, by decide⟩
  refine ⟨h, ?_⟩
  rw [heq]
  decide

/-- C4: in any written output, the rows flagged as non-country regions are
exactly the seven synthetic rows (m49 codes 899, 568, 490, 577, 837, 838,
839); every row originating from either source keeps the flag false; and
each synthetic row has m49_comtrade = m49, is_least_developed false and no
ISO codes. -/
theorem non_country_rows (un : List UnRow) (cents : List CentroidRow)
    (h : (writeTable un cents).isSome = true) :
    ((((writeTable un cents).getD ([], [])).2.filter
        (fun o => o.non_country_region)).Perm
      (m49_non_country.map (fun p => selectColumns (nonCountryRow p)))) ∧
    (m49_non_country.map (fun p => selectColumns (nonCountryRow p))).length = 7 ∧
    (∀ o ∈ m49_non_country.map (fun p => selectColumns (nonCountryRow p)),
      o.m49_comtrade = o.m49 ∧ o.ldc = some false ∧ o.iso2 = none ∧ o.iso3 = none ∧
        o.non_country_region = true) ∧
    ((m49_non_country.map (fun p => selectColumns (nonCountryRow p))).map
        (fun o => o.m49) =
      [some 899, some 568, some 490, some 577, some 837, some 838, some 839]) := by
  refine ⟨?_, by decide, by decide, by decide⟩
  obtain ⟨f, hf⟩ := Option.isSome_iff_exists.mp h
  obtain ⟨out, hout, rfl⟩ := writeTable_eq_some.mp hf
  obtain ⟨hall, hsort⟩ := reconcile_eq_some.mp hout
  rw [hf]
  simp only [Option.getD_some]
  have h1 : (out.map selectColumns).filter (fun o => o.non_country_region) =
      (out.filter (fun r => r.non_country_region)).map selectColumns := by
    rw [List.filter_map]
    rfl
  have hperm : out.Perm (preRows un cents) := by
    rw [hsort]
    exact List.perm_insertionSort rowLE _
  have h2 : (out.filter (fun r => r.non_country_region)).Perm
      ((preRows un cents).filter (fun r => r.non_country_region)) :=
    hperm.filter _
  have h3 : (preRows un cents).filter (fun r => r.non_country_region) =
      m49_non_country.map nonCountryRow := by
    rw [preRows_eq, List.filter_append]
    have hleft : (((mergeOuter un cents).map
        (fun m => applyAll alternate_comtrade_m49_codes (toRow m))).filter
          (fun r => r.non_country_region)) = [] := by
      rw [List.filter_eq_nil_iff]
      intro r hrm
      obtain ⟨m, _, rfl⟩ := List.mem_map.mp hrm
      have hflag := (applyAll_same alternate_comtrade_m49_codes (toRow m)).2.2.2.2.2.2.2.2.2
      intro hcontra
      rw [hflag] at hcontra
      exact Bool.false_ne_true hcontra
    rw [hleft, List.nil_append]
    rfl
  have h4 : (out.filter (fun r => r.non_country_region)).Perm
      (m49_non_country.map nonCountryRow) := h3 ▸ h2
  have h5 : m49_non_country.map (fun p => selectColumns (nonCountryRow p)) =
      (m49_non_country.map nonCountryRow).map selectColumns := by rfl
  rw [h1, h5]
  exact h4.map selectColumns

/-- Witness for C4 on a sample run that reaches the writer: the flagged
output rows are exactly the seven synthetic rows. -/
theorem non_country_rows_witness :
    (((writeTable (fetch_un_data exRawUnFour) (fetch_centroids [])).getD
        ([], [])).2.filter (fun o => o.non_country_region)).Perm
      (m49_non_country.map (fun p => selectColumns (nonCountryRow p))) :=
  (non_country_rows (fetch_un_data exRawUnFour) (fetch_centroids []) (by decide)).1

/-- C5 counterexample: the exclusion happens before the stripping, not
after.  A raw row whose iso has a leading blank trims to an excluded pair,
yet it survives the cleaning and its stripped image appears in the cleaned
table. -/
theorem exclusion_strip_order_cex :
    ((strip exRawSpacedTF.iso, strip exRawSpacedTF.country) ∈ exclude_rows) ∧
    projectRow (stripRow exRawSpacedTF) ∈ fetch_centroids [exRawSpacedTF] := by decide

/-- C5 (amended): the cleaning removes exactly those raw rows whose raw,
unstripped (iso, country) pair is in the five-entry exclusion list — removal
is exact match on both fields simultaneously, so a row matching only one
field survives — and only then strips whitespace from the surviving rows. -/
theorem exclusion_exact (raw : List RawCentroidRow) :
    ((cleanCentroids raw).Perm
      ((raw.filter keepRow).map (fun r => projectRow (stripRow r)))) ∧
    (∀ r ∈ raw, ((r.iso, r.country) ∈ exclude_rows ↔ keepRow r = false)) ∧
    (∀ r ∈ raw, (r.iso, r.country) ∉ exclude_rows →
      projectRow (stripRow r) ∈ fetch_centroids raw) := by
  refine ⟨cleanCentroids_perm raw, ?_, ?_⟩
  · intro r _
    unfold keepRow
    constructor
    · intro hmem
      simp [hmem]
    · intro hfalse
      by_contra hnot
      simp [hnot] at hfalse
  · intro r hr hnot
    have hkeep : keepRow r = true := by
      unfold keepRow
      simp [hnot]
    have hmem : projectRow (stripRow r) ∈
        (raw.filter keepRow).map (fun r => projectRow (stripRow r)) :=
      List.mem_map_of_mem _ (List.mem_filter.mpr ⟨hr, hkeep⟩)
    exact List.mem_append_left _ ((cleanCentroids_perm raw).mem_iff.mpr hmem)

/-- Witness for C5 at a concrete input: a non-excluded row survives into the
cleaned table. -/
theorem exclusion_exact_witness :
    projectRow (stripRow exRawFrance) ∈ fetch_centroids [exRawFrance] :=
  (exclusion_exact [exRawFrance]).2.2 exRawFrance (by decide) (by decide)

/-- C6: the written file has a header row with exactly the eleven output
columns in order, no row-index column (to_csv is called with index false),
and its rows are sorted ascending by country, rows with an absent country
placed last as the sort does with missing keys. -/
theorem output_format (un : List UnRow) (cents : List CentroidRow)
    (h : (writeTable un cents).isSome = true) :
    ((writeTable un cents).getD ([], [])).1 =
      ["region", "subregion", "country", "iso2", "iso3", "m49", "m49_comtrade",
       "latitude", "longitude", "ldc", "non_country_region"] ∧
    List.Sorted outRowLE (((writeTable un cents).getD ([], [])).2) ∧
    to_csv_index = false ∧
    to_csv_header = true := by
  obtain ⟨f, hf⟩ := Option.isSome_iff_exists.mp h
  obtain ⟨out, hout, rfl⟩ := writeTable_eq_some.mp hf
  obtain ⟨_, hsort⟩ := reconcile_eq_some.mp hout
  rw [hf]
  simp only [Option.getD_some]
  refine ⟨rfl, ?_, rfl, rfl⟩
  rw [hsort]
  exact List.Pairwise.map selectColumns (fun a b hab => hab)
    (sorted_insertionSort_rowLE (preRows un cents))

/-- Witness for C6 on a sample run: the header of the written file. -/
theorem output_format_witness :
    ((writeTable (fetch_un_data exRawUnFour) (fetch_centroids [])).getD ([], [])).1 =
      ["region", "subregion", "country", "iso2", "iso3", "m49", "m49_comtrade",
       "latitude", "longitude", "ldc", "non_country_region"] :=
  (output_format (fetch_un_data exRawUnFour) (fetch_centroids []) (by decide)).1

/-- C7 counterexample: iso uniqueness of the cleaned centroid table fails for
raw inputs that legitimately pass the exclusion filter: a raw Hong Kong row
duplicates the iso HK of the appended manual row. -/
theorem iso_unique_cex :
    ¬ ((fetch_centroids [exRawHongKong]).map CentroidRow.iso).Nodup := by decide

/-- C7 (amended): when the stripped iso codes of the raw rows surviving the
exclusion filter are pairwise distinct and avoid the iso codes of the four
manual rows — as holds for the real upstream data the exclusion list was
written for — every iso value in the cleaned centroid table is unique. -/
theorem iso_unique (raw : List RawCentroidRow)
    (h1 : ((raw.filter keepRow).map (fun r => strip r.iso)).Nodup)
    (h2 : ∀ r ∈ raw.filter keepRow, strip r.iso ∉ missing_lat_lon.map CentroidRow.iso) :
    ((fetch_centroids raw).map CentroidRow.iso).Nodup := by
  rw [fetch_centroids, List.map_append, List.nodup_append]
  have hpermiso : ((cleanCentroids raw).map CentroidRow.iso).Perm
      ((raw.filter keepRow).map (fun r => strip r.iso)) := by
    have h := (cleanCentroids_perm raw).map CentroidRow.iso
    rw [List.map_map] at h
    exact h
  refine ⟨hpermiso.symm.nodup h1, by decide, ?_⟩
  intro a ha hb
  obtain ⟨r, hr, hra⟩ := List.mem_map.mp (hpermiso.mem_iff.mp ha)
  exact h2 r hr (hra ▸ hb)

/-- Witness for C7 at a concrete input satisfying both hypotheses. -/
theorem iso_unique_witness :
    ((fetch_centroids [exRawFrance]).map CentroidRow.iso).Nodup :=
  iso_unique [exRawFrance] (by decide) (by decide)

/-- C8 counterexample: the cleaned centroid table is not sorted by iso code
with the manual rows in sorted position: the four manual rows are appended
after the sort in their hardcoded order HK, MO, AX, EH, so already on the
empty raw input the table is out of order. -/
theorem centroid_sort_cex :
    (fetch_centroids []).map CentroidRow.iso = ["HK", "MO", "AX", "EH"] ∧
    ¬ List.Sorted (fun a b : CentroidRow => strLE a.iso b.iso = true)
      (fetch_centroids []) := by
  exact ⟨by decide, by decide⟩

/-- C8 (amended): the source-derived part of the cleaned centroid table is
sorted by iso code and the sort changes no row content (it is a permutation
of the filtered, stripped source rows); the four manual rows for Hong Kong,
Macau, the Åland Islands and Western Sahara are then appended at the end in
a fixed order rather than merged into their sorted positions. -/
theorem centroid_sort (raw : List RawCentroidRow) :
    fetch_centroids raw = cleanCentroids raw ++ missing_lat_lon ∧
    List.Sorted (fun a b : CentroidRow => strLE a.iso b.iso = true)
      (cleanCentroids raw) ∧
    ((cleanCentroids raw).Perm
      ((raw.filter keepRow).map (fun r => projectRow (stripRow r)))) ∧
    missing_lat_lon.map CentroidRow.country =
      ["Hong Kong", "Macau", "Åland Islands", "Western Sahara"] := by
  refine ⟨rfl, ?_, cleanCentroids_perm raw, by decide⟩
  rw [cleanCentroids]
  exact List.Pairwise.map projectRow (fun a b hab => hab)
    (sorted_insertionSort_rawIsoLE ((raw.filter keepRow).map stripRow))

/-- C9 counterexample: a cleaned centroid row (France, iso FR) matches no
classification row, yet the run does not abort: the France row receives its
m49_comtrade from the override table, the integer coercion succeeds and the
file is written. -/
theorem abort_claim_cex :
    (∃ c ∈ fetch_centroids [exRawFrance],
      c.iso = "FR" ∧ ∀ u ∈ fetch_un_data exRawUnFour, u.iso2 ≠ c.iso) ∧
    (writtenFile [exRawFrance] exRawUnFour).isSome = true := by decide

/-- C9 (amended): the integer coercion of m49_comtrade fails — aborting the
run before any output is written — exactly when some cleaned centroid row
both matches no classification iso2 and carries a country name outside the
five-entry override table.  In particular the writer is reached whenever
every cleaned centroid row has a classification match, but also on runs
where every unmatched centroid is named like an override country. -/
theorem abort_condition (un : List UnRow) (cents : List CentroidRow) :
    (writeTable un cents).isSome = true ↔
      ∀ c ∈ cents, centMatched un c = true ∨ c.country ∈ overrideNames := by
  rw [writeTable_isSome, reconcile_isSome, List.all_eq_true]
  constructor
  · intro hall c hc
    rcases Bool.eq_false_or_eq_true (centMatched un c) with hm | hm
    · exact Or.inl hm
    · right
      have hmem : applyAll alternate_comtrade_m49_codes (toRow (centOnlyRow c)) ∈
          preRows un cents := by
        rw [preRows_eq]
        exact List.mem_append_left _
          (List.mem_map_of_mem _ (unmatched_centOnly_mem hc hm))
      have hsome := hall _ hmem
      rcases (applyAll_comtrade_isSome _ _).mp hsome with hbase | ⟨p, hp, hcp⟩
      · exact absurd hbase Bool.false_ne_true
      · have hcc : c.country = p.2 := Option.some.inj hcp
        rw [overrideNames, hcc]
        exact List.mem_map_of_mem Prod.snd hp
  · intro hP r hr
    rw [preRows_eq] at hr
    rcases List.mem_append.mp hr with hr | hr
    · obtain ⟨m, hm, rfl⟩ := List.mem_map.mp hr
      apply (applyAll_comtrade_isSome _ _).mpr
      cases hm49 : m.m49 with
      | some v =>
        left
        show (toRow m).m49_comtrade.isSome = true
        rw [show (toRow m).m49_comtrade = m.m49 from rfl, hm49]
        rfl
      | none =>
        obtain ⟨c, hc, hcm, rfl⟩ := mergeOuter_m49_none hm hm49
        rcases hP c hc with hmt | hnames
        · rw [hmt] at hcm
          cases hcm
        · right
          obtain ⟨p, hp, hsnd⟩ := List.mem_map.mp hnames
          refine ⟨p, hp, ?_⟩
          show some c.country = some p.2
          rw [hsnd]
    · have hsynth : ∀ r ∈ m49_non_country.map nonCountryRow,
          r.m49_comtrade.isSome = true := by decide
      exact hsynth r hr

/-- Witness for C9: the equivalence applied on a sample run that reaches the
writer. -/
theorem abort_condition_witness :
    ∀ c ∈ fetch_centroids [], centMatched (fetch_un_data exRawUnFour) c = true ∨
      c.country ∈ overrideNames :=
  (abort_condition (fetch_un_data exRawUnFour) (fetch_centroids [])).mp (by decide)

/-- C10: both sources are read with keep_default_na disabled, so every cell
survives verbatim as a string: the parse model maps every cell to itself,
whereas under the pandas default the NA and empty cells would become missing
values; in particular the Namibia iso code NA survives as a two-character
string into the cleaned centroid table and into the written output, and an
empty LDC marker cell arrives as an empty string, deriving ldc false. -/
theorem na_sentinels_disabled :
    (read_csv_keep_default_na = false ∧ read_html_keep_default_na = false) ∧
    (∀ s, parseCell read_csv_keep_default_na s = some s) ∧
    (∀ s, parseCell read_html_keep_default_na s = some s) ∧
    (parseCell true "NA" = none ∧ parseCell true "" = none) ∧
    ((fetch_centroids [exRawNamibia]).map CentroidRow.iso =
      ["NA", "HK", "MO", "AX", "EH"]) ∧
    ((writtenFile [exRawNamibia] (exRawUnNamibia :: exRawUnFour)).isSome = true ∧
      ∃ o ∈ ((writtenFile [exRawNamibia] (exRawUnNamibia :: exRawUnFour)).getD
          ([], [])).2, o.iso2 = some "NA" ∧ o.country = some "Namibia") ∧
    ((fetch_un_data [exRawUnNamibia]).map UnRow.ldc = [false]) := by
  refine ⟨⟨rfl, rfl⟩, fun s => rfl, fun s => rfl, ⟨rfl, rfl⟩, by decide, ⟨by decide, ?_⟩,
    by decide⟩
  decide

end CountryData
